import Mathlib

/-!
Verification of the `layers` diffusion modelling programs (`3layer` and
`fit-layer`).

The C sources are shallowly embedded over `ℚ`: every `double` becomes a
rational number, C arrays become total functions (out-of-range cells hold
the allocation default `0`, matching `create_array`), and the transcendental
library functions (`erfc`, `sqrt`) together with the constant `M_PI` are
abstracted as explicit parameters, since the remaining arithmetic is exact
field arithmetic.  Fallible configuration checks (`error(...)`, which calls
`exit`) become `Option` results.
-/

/-- C `lround`: round to nearest integer, ties away from zero
(`lround(sdelay/dt)` in `model.c`). -/
def lroundQ (x : ℚ) : ℤ :=
  if 0 ≤ x then ⌊x + 1/2⌋ else -⌊-x + 1/2⌋

/-- The `invr` array built by both `main` drivers (`3layer.c` lines 900-905,
`fit-layer` main): `invr[0] = 1/dr`, `invr[1] = 0`, `invr[j] = 1/((j-1)*dr)`
for `j ≥ 2`. -/
def mkInvr (dr : ℚ) : ℕ → ℚ :=
  fun j => if j = 0 then 1 / dr else if j = 1 then 0 else 1 / (((j : ℚ) - 1) * dr)

/-!
## The cylindrical Laplacian stencil (`convolve3`, fit-layer/convo.c)

The C function writes the output array region by region, in this order:

 1. interior `1 ≤ i ≤ M-2`, `2 ≤ j ≤ N-2`;
 2. axis column `j = 1`, `1 ≤ i ≤ M-2` (the `L0` kernel);
 3. cell `(0,1)`;
 4. cell `(M-1,1)`;
 5. row `i = 0`, `1 ≤ j ≤ N-2`;
 6. row `i = M-1`, `1 ≤ j ≤ N-2`;
 7. column `j = 0`, `1 ≤ i ≤ M-2`;
 8. column `j = N-1`, `1 ≤ i ≤ M-2`;
 9.-12. the four corners.

Each region value reads only the input array `a`, never the partial output,
so the function below computes the final value of each cell directly.  A
later write wins, hence the `if` cascade tests the regions in reverse write
order.  In particular writes 3 and 4 are dead for every `N ≥ 2`: when
`N ≥ 3` region 5 (resp. 6) overwrites `(0,1)` (resp. `(M-1,1)`), and when
`N = 2` the corner writes do, so the branches for regions 3 and 4 below are
unreachable but kept for faithfulness to the source text.
-/

/-- Shallow embedding of `convolve3(M, N, a, scale1, scale2, invr, out)`
(fit-layer/convo.c).  `a i j` is `A(i,j)`; the result function gives the
final value of `OUT(i,j)` after all region writes; cells never written keep
the `create_array` default `0`. -/
def convolve3 (M N : ℕ) (a : ℕ → ℕ → ℚ) (scale1 scale2 : ℚ) (invr : ℕ → ℚ) :
    ℕ → ℕ → ℚ := fun i j =>
  if i = 0 ∧ j = 0 then
    scale1 * (-4 * a 0 0 + a 0 1 + a 1 0) + scale2 * (a 0 1 * invr 0)
  else if i = 0 ∧ j = N - 1 then
    scale1 * (a 0 (N-2) - 4 * a 0 (N-1) + a 1 (N-1))
      + scale2 * (-(a 0 (N-2)) * invr (N-1))
  else if i = M - 1 ∧ j = 0 then
    scale1 * (a (M-2) 0 - 4 * a (M-1) 0 + a (M-1) 1)
      + scale2 * (a (M-1) 1 * invr 0)
  else if i = M - 1 ∧ j = N - 1 then
    scale1 * (a (M-2) (N-1) + a (M-1) (N-2) - 4 * a (M-1) (N-1))
      + scale2 * (-(a (M-1) (N-2)) * invr (N-1))
  else if 1 ≤ i ∧ i + 1 < M ∧ j = N - 1 then
    scale1 * (a (i-1) (N-1) + a i (N-2) - 4 * a i (N-1) + a (i+1) (N-1))
      + scale2 * (-(a i (N-2)) * invr (N-1))
  else if 1 ≤ i ∧ i + 1 < M ∧ j = 0 then
    scale1 * (a (i-1) 0 - 4 * a i 0 + a i 1 + a (i+1) 0)
      + scale2 * (a i 1 * invr 0)
  else if i = M - 1 ∧ 1 ≤ j ∧ j + 1 < N then
    scale1 * (a (M-2) j + a (M-1) (j-1) - 4 * a (M-1) j + a (M-1) (j+1))
      + scale2 * ((-(a (M-1) (j-1)) + a (M-1) (j+1)) * invr j)
  else if i = 0 ∧ 1 ≤ j ∧ j + 1 < N then
    scale1 * (a 0 (j-1) - 4 * a 0 j + a 0 (j+1) + a 1 j)
      + scale2 * ((-(a 0 (j-1)) + a 0 (j+1)) * invr j)
  else if i = M - 1 ∧ j = 1 then
    scale1 * (a (M-2) 1 + 2 * a (M-1) 0 - 6 * a (M-1) 1 + 2 * a (M-1) 2)
  else if i = 0 ∧ j = 1 then
    scale1 * (2 * a 0 0 - 6 * a 0 1 + 2 * a 0 2 + a 1 1)
  else if 1 ≤ i ∧ i + 1 < M ∧ j = 1 then
    scale1 * (a (i-1) 1 + 2 * a i 0 - 6 * a i 1 + 2 * a i 2 + a (i+1) 1)
  else if 1 ≤ i ∧ i + 1 < M ∧ 2 ≤ j ∧ j + 1 < N then
    scale1 * (a (i-1) j + a i (j-1) - 4 * a i j + a i (j+1) + a (i+1) j)
      + scale2 * ((-(a i (j-1)) + a i (j+1)) * invr j)
  else 0

/-!
## The layered forward solver
(`calc_diffusion_curve_layer` in 3layer/model.c and the textually identical
step logic of `calc_diffusion_curve_layer_fit_layer` in fit-layer/model.c;
the 3layer variant additionally writes image files, a side effect outside
the state evolution modelled here.)
-/

/-- The scalar inputs of `calc_diffusion_curve_layer`, plus the three arrays
(`t`, `s`, `invr`) it receives from the driver.  `nolayer` is the C `int`
flag used as a boolean (`nolayer == FALSE` selects the 3-layer model). -/
structure LayerParams where
  nt : ℕ
  nz : ℕ
  nr : ℕ
  iprobe : ℕ
  jprobe : ℕ
  iz1 : ℕ
  iz2 : ℕ
  nolayer : Bool
  dt : ℚ
  dr : ℚ
  sdelay : ℚ
  sduration : ℚ
  alpha_so : ℚ
  theta_so : ℚ
  kappa_so : ℚ
  alpha_sp : ℚ
  theta_sp : ℚ
  kappa_sp : ℚ
  alpha_sr : ℚ
  theta_sr : ℚ
  kappa_sr : ℚ
  dfree : ℚ
  t : ℕ → ℚ
  s : ℕ → ℕ → ℚ
  invr : ℕ → ℚ

/-- `dstar_so = theta_so * dfree`. -/
def dstar_so (P : LayerParams) : ℚ := P.theta_so * P.dfree

/-- `dstar_sp = theta_sp * dfree`. -/
def dstar_sp (P : LayerParams) : ℚ := P.theta_sp * P.dfree

/-- `dstar_sr = theta_sr * dfree`. -/
def dstar_sr (P : LayerParams) : ℚ := P.theta_sr * P.dfree

/-- `const_so1 = dstar_so * dt / SQR(dr)`. -/
def const_so1 (P : LayerParams) : ℚ := dstar_so P * P.dt / (P.dr * P.dr)

/-- `const_so2 = dstar_so * dt / (2.0 * dr)`. -/
def const_so2 (P : LayerParams) : ℚ := dstar_so P * P.dt / (2 * P.dr)

/-- `const_sp1 = dstar_sp * dt / SQR(dr)`. -/
def const_sp1 (P : LayerParams) : ℚ := dstar_sp P * P.dt / (P.dr * P.dr)

/-- `const_sp2 = dstar_sp * dt / (2.0 * dr)`. -/
def const_sp2 (P : LayerParams) : ℚ := dstar_sp P * P.dt / (2 * P.dr)

/-- `const_sr1 = dstar_sr * dt / SQR(dr)`. -/
def const_sr1 (P : LayerParams) : ℚ := dstar_sr P * P.dt / (P.dr * P.dr)

/-- `const_sr2 = dstar_sr * dt / (2.0 * dr)`. -/
def const_sr2 (P : LayerParams) : ℚ := dstar_sr P * P.dt / (2 * P.dr)

/-- Interface value at the SR/SP boundary (`cb_sr[j]`, model.c lines
280-282). -/
def cb_sr (P : LayerParams) (c : ℕ → ℕ → ℚ) (j : ℕ) : ℚ :=
  (dstar_sr P * P.alpha_sr * c P.iz1 j + dstar_sp P * P.alpha_sp * c (P.iz1 + 1) j)
    / (dstar_sr P * P.alpha_sr + dstar_sp P * P.alpha_sp)

/-- Interface value at the SP/SO boundary (`cb_so[j]`, model.c lines
284-286). -/
def cb_so (P : LayerParams) (c : ℕ → ℕ → ℚ) (j : ℕ) : ℚ :=
  (dstar_sp P * P.alpha_sp * c P.iz2 j + dstar_so P * P.alpha_so * c (P.iz2 + 1) j)
    / (dstar_sp P * P.alpha_sp + dstar_so P * P.alpha_so)

/-- SR sub-grid of shape `(iz1+2) × (nr+1)`: rows `0..iz1` copy `c`, row
`iz1+1` is the ghost row `2*cb_sr[j] - c[iz1][j]`. -/
def c_sr (P : LayerParams) (c : ℕ → ℕ → ℚ) : ℕ → ℕ → ℚ := fun i j =>
  if i < P.iz1 + 1 then c i j
  else if i = P.iz1 + 1 then 2 * cb_sr P c j - c P.iz1 j
  else 0

/-- SP sub-grid of shape `(iz2-iz1+2) × (nr+1)`: row 0 is the ghost row
`2*cb_sr[j] - c[iz1+1][j]`, rows `1..iz2-iz1` copy `c[iz1+1..iz2]`, row
`iz2-iz1+1` is the ghost row `2*cb_so[j] - c[iz2][j]`. -/
def c_sp (P : LayerParams) (c : ℕ → ℕ → ℚ) : ℕ → ℕ → ℚ := fun i j =>
  if i = 0 then 2 * cb_sr P c j - c (P.iz1 + 1) j
  else if i < P.iz2 - P.iz1 + 1 then c (P.iz1 + i) j
  else if i = P.iz2 - P.iz1 + 1 then 2 * cb_so P c j - c P.iz2 j
  else 0

/-- SO sub-grid of shape `(nz-iz2) × (nr+1)`: row 0 is the ghost row
`2*cb_so[j] - c[iz2+1][j]`, rows `1..nz-1-iz2` copy `c[iz2+1..nz-1]`. -/
def c_so (P : LayerParams) (c : ℕ → ℕ → ℚ) : ℕ → ℕ → ℚ := fun i j =>
  if i = 0 then 2 * cb_so P c j - c (P.iz2 + 1) j
  else if i < P.nz - P.iz2 then c (P.iz2 + i) j
  else 0

/-- One diffusion update in 3-layer mode: build the three sub-grids, apply
`convolve3` to each with its own constants, and recombine
(`c[INDEX(i,j)] = c_*[..] + dc_*[..]`, model.c lines 279-324).  Cells outside
the `nz × (nr+1)` grid are untouched. -/
def diffuseLayered (P : LayerParams) (c : ℕ → ℕ → ℚ) : ℕ → ℕ → ℚ := fun i j =>
  if i < P.nz ∧ j < P.nr + 1 then
    if i < P.iz1 + 1 then
      c_sr P c i j
        + convolve3 (P.iz1 + 2) (P.nr + 1) (c_sr P c)
            (const_sr1 P) (const_sr2 P) P.invr i j
    else if i < P.iz2 + 1 then
      c_sp P c (i - P.iz1) j
        + convolve3 (P.iz2 - P.iz1 + 2) (P.nr + 1) (c_sp P c)
            (const_sp1 P) (const_sp2 P) P.invr (i - P.iz1) j
    else
      c_so P c (i - P.iz2) j
        + convolve3 (P.nz - P.iz2) (P.nr + 1) (c_so P c)
            (const_so1 P) (const_so2 P) P.invr (i - P.iz2) j
  else c i j

/-- One diffusion update in 1-layer (`nolayer`) mode: `convolve3` applied
once to the whole field with the SR constants, then `c[i] += dc[i]` over the
flat `nz*(nr+1)` array (model.c lines 326-338). -/
def diffuseNolayer (P : LayerParams) (c : ℕ → ℕ → ℚ) : ℕ → ℕ → ℚ := fun i j =>
  if i < P.nz ∧ j < P.nr + 1 then
    c i j + convolve3 P.nz (P.nr + 1) c (const_sr1 P) (const_sr2 P) P.invr i j
  else c i j

/-- Source re-injection: if `t[k] + dt/2 < sdelay + sduration` the whole
source array is added to the field (model.c lines 341-346). -/
def addSource (P : LayerParams) (k : ℕ) (c : ℕ → ℕ → ℚ) : ℕ → ℕ → ℚ := fun i j =>
  if P.t k + P.dt / 2 < P.sdelay + P.sduration ∧ i < P.nz ∧ j < P.nr + 1 then
    c i j + P.s i j
  else c i j

/-- Non-specific clearance: rows `0..iz1` are scaled by `1 - kappa_sr*dt`,
rows `iz1+1..iz2` by `1 - kappa_sp*dt`, rows `iz2+1..nz-1` by
`1 - kappa_so*dt` (model.c lines 348-356). -/
def clearanceStep (P : LayerParams) (c : ℕ → ℕ → ℚ) : ℕ → ℕ → ℚ := fun i j =>
  if i < P.nz ∧ j < P.nr + 1 then
    if i < P.iz1 + 1 then c i j * (1 - P.kappa_sr * P.dt)
    else if i < P.iz2 + 1 then c i j * (1 - P.kappa_sp * P.dt)
    else c i j * (1 - P.kappa_so * P.dt)
  else c i j

/-- Symmetry restoration: `c[INDEX(i,0)] = c[INDEX(i,2)]` for every row
(model.c lines 358-361). -/
def symmetrize (P : LayerParams) (c : ℕ → ℕ → ℚ) : ℕ → ℕ → ℚ := fun i j =>
  if i < P.nz ∧ j = 0 then c i 2 else c i j

/-- One full timestep of the loop body for loop index `k`: diffusion (layered
or homogeneous), source injection, clearance, symmetry restoration. -/
def layerStep (P : LayerParams) (k : ℕ) (c : ℕ → ℕ → ℚ) : ℕ → ℕ → ℚ :=
  symmetrize P (clearanceStep P (addSource P k
    (if P.nolayer then diffuseNolayer P c else diffuseLayered P c)))

/-- `nds = lround(sdelay/dt)` (model.c line 168), as the C `int`. -/
def ndsZ (P : LayerParams) : ℤ := lroundQ (P.sdelay / P.dt)

/-- The delay step count as a natural number (the loops only execute for
non-negative `nds`). -/
def ndsN (P : LayerParams) : ℕ := (ndsZ P).toNat

/-- Field state when the loop reaches `k = ndsN P + n`: the field is seeded
with the source array (`c[i] = s[i]` at `t = 0`) and then stepped once per
loop iteration. -/
def cAfter (P : LayerParams) : ℕ → (ℕ → ℕ → ℚ)
  | 0 => P.s
  | n + 1 => layerStep P (ndsN P + n) (cAfter P n)

/-- The probe output array `p`: zero during the delay (`p[k] = 0` for
`k < nds`), then `p[k] = c[INDEX(iprobe,jprobe)]` recorded at the top of
loop iteration `k`, i.e. after `k - nds` completed steps. -/
def probeCurve (P : LayerParams) : ℕ → ℚ := fun k =>
  if k < ndsN P then 0 else cAfter P (k - ndsN P) P.iprobe P.jprobe

/-- The forward solver: `error(...)` (which aborts the process) when
`nds >= nt`, otherwise the probe curve. -/
def calcDiffusionCurveLayer (P : LayerParams) : Option (ℕ → ℚ) :=
  if (P.nt : ℤ) ≤ ndsZ P then none else some (probeCurve P)

/-!
## The homogeneous (RTI) closed-form model (3layer/rti-theory.c)

The C code calls the libm functions `erfc` and `sqrt` and the constant
`M_PI`; these are transcendental, so the embedding abstracts them as
parameters `erfcF`, `sqrtF` and `piv`.
-/

/-- Shallow embedding of `rti_theory`.  `p_theory` entries beyond `nt` keep
the allocation default `0`.  `kappa` is accepted and ignored, exactly as in
the source (its doc comment carries a todo to use it). -/
def rti_theory (erfcF sqrtF : ℚ → ℚ) (piv : ℚ) (nt : ℕ)
    (spdist samplitude sdelay sduration kappa dfree alpha theta : ℚ)
    (t : ℕ → ℚ) : ℕ → ℚ := fun i =>
  let dstar := theta * dfree
  let ampl := samplitude / (4 * piv * alpha * dstar * spdist)
  if i < nt then
    if t i ≤ sdelay then 0
    else if sdelay + sduration < t i then
      ampl * erfcF (spdist / (2 * sqrtF (dstar * (t i - sdelay))))
        - ampl * erfcF (spdist / (2 * sqrtF (dstar * (t i - (sdelay + sduration)))))
    else
      ampl * erfcF (spdist / (2 * sqrtF (dstar * (t i - sdelay))))
  else 0

/-!
## Source construction in the drivers (3layer/3layer.c lines 888-914;
fit-layer main is identical for the primary source)
-/

/-- The Faraday constant from header.h. -/
def faradayC : ℚ := 96485.3399

/-- `samplitude = crnt * trn / FARADAY` (3layer.c line 750): the molar rate
of the source in mol/s. -/
def sourceAmplitude (crnt trn : ℚ) : ℚ := crnt * trn / faradayC

/-- The `alphas` array (3layer.c lines 890-895); it is constant along `r`,
so only the row index matters.  Rows at or beyond `nz` keep the allocation
default `0`. -/
def alphasArr (nz iz1 iz2 : ℕ) (alpha_sr alpha_sp alpha_so : ℚ) : ℕ → ℚ := fun i =>
  if i < iz1 + 1 then alpha_sr
  else if i < iz2 + 1 then alpha_sp
  else if i < nz then alpha_so
  else 0

/-- The source array `s` (3layer.c lines 909-914): a single nonzero cell at
`(isource, jsource)` holding
`(1/alphas[isource][jsource]) * samplitude * dt * 4 / (PI * SQR(dr) * dz)`.
`piv` abstracts the constant `M_PI`. -/
def sourceArr (nz iz1 iz2 : ℕ) (alpha_sr alpha_sp alpha_so : ℚ)
    (samplitude dt dr dz piv : ℚ) (isource jsource : ℕ) : ℕ → ℕ → ℚ := fun i j =>
  if i = isource ∧ j = jsource then
    (1 / alphasArr nz iz1 iz2 alpha_sr alpha_sp alpha_so isource)
      * samplitude * dt * 4 / (piv * (dr * dr) * dz)
  else 0

/-!
## The inverse-fit objective (`calc_mse_fit_layer`, fit-layer/model.c)
-/

/-- The extra inputs of `calc_mse_fit_layer` beyond the forward-solver
parameters: data length `nd`, the `-g` flag, the six bound parameters, and
the measured data array. -/
structure FitParams where
  lp : LayerParams
  nd : ℕ
  opt_global_kappa : Bool
  minalpha : ℚ
  maxalpha : ℚ
  mintheta : ℚ
  maxtheta : ℚ
  minkappa : ℚ
  maxkappa : ℚ
  p_data : ℕ → ℚ

/-- The 0.001 floor applied to the alpha and theta candidates
(`if (p->alpha_sp <= 0.001) p->alpha_sp = 0.001`). -/
def clampLow (x : ℚ) : ℚ := if x ≤ 1/1000 then 1/1000 else x

/-- Writing the candidate vector `x = (alpha_sp, theta_sp, kappa_sp)` into
the parameter struct: alpha and theta are floored at 0.001, and with the
`-g` flag `kappa_sr` and `kappa_so` are set to the candidate `kappa_sp`. -/
def fitCandidateParams (F : FitParams) (x : ℚ × ℚ × ℚ) : LayerParams :=
  { F.lp with
    alpha_sp := clampLow x.1
    theta_sp := clampLow x.2.1
    kappa_sp := x.2.2
    kappa_sr := if F.opt_global_kappa then x.2.2 else F.lp.kappa_sr
    kappa_so := if F.opt_global_kappa then x.2.2 else F.lp.kappa_so }

/-- The curve-comparison term of the objective: index-resampled mean squared
error between the model curve `p` and the data (fit-layer/model.c lines
647-663). -/
def baseMse (F : FitParams) (p : ℕ → ℚ) : ℚ :=
  if F.nd < F.lp.nt then
    (∑ i in Finset.Ico 1 F.nd,
        (p ((lroundQ ((i : ℚ) * ((F.lp.nt : ℚ) / (F.nd : ℚ)))).toNat) - F.p_data i) ^ 2)
      / (F.nd : ℚ)
  else
    (∑ i in Finset.Ico 1 F.lp.nt,
        (p i - F.p_data ((lroundQ ((i : ℚ) * ((F.nd : ℚ) / (F.lp.nt : ℚ)))).toNat)) ^ 2)
      / (F.lp.nt : ℚ)

/-- The penalty added for one constrained parameter with bounds `[lo, hi]`:
`(lo - x) * 10` below the lower bound plus `(x - hi) * 10` above the upper
bound (fit-layer/model.c lines 665-678, `penalty_factor = 10`). -/
def pen1 (lo hi x : ℚ) : ℚ :=
  (if x < lo then (lo - x) * 10 else 0) + (if hi < x then (x - hi) * 10 else 0)

/-- The full objective: write the candidate into the parameters, run the
forward solver, and return the resampled MSE plus the three bound
penalties (computed on the clamped alpha/theta and the raw kappa). -/
def calc_mse_fit_layer (F : FitParams) (x : ℚ × ℚ × ℚ) : Option ℚ :=
  let P := fitCandidateParams F x
  match calcDiffusionCurveLayer P with
  | none => none
  | some p =>
      some (baseMse F p
        + pen1 F.minalpha F.maxalpha P.alpha_sp
        + pen1 F.mintheta F.maxtheta P.theta_sp
        + pen1 F.minkappa F.maxkappa P.kappa_sp)

/-!
## Concrete example configurations for the witnesses
-/

/-- A small layered configuration: `6 × (2+1)` grid, unit parameters,
`dr = 7` (so the stability factor `7*dstar*dt/dr^2 = 1/7` is small), zero
source, zero clearance. -/
def exP1 : LayerParams where
  nt := 5
  nz := 6
  nr := 2
  iprobe := 1
  jprobe := 1
  iz1 := 1
  iz2 := 3
  nolayer := false
  dt := 1
  dr := 7
  sdelay := 0
  sduration := 2
  alpha_so := 1
  theta_so := 1
  kappa_so := 0
  alpha_sp := 1
  theta_sp := 1
  kappa_sp := 0
  alpha_sr := 1
  theta_sr := 1
  kappa_sr := 0
  dfree := 1
  t := fun k => k
  s := fun _ _ => 0
  invr := mkInvr 7

/-- `exP1` with a source delay longer than the whole run:
`lround(sdelay/dt) = 10 ≥ nt = 5`. -/
def exP2 : LayerParams := { exP1 with sdelay := 10 }

/-- `exP1` with a two-step source delay: `lround(sdelay/dt) = 2 < nt = 5`. -/
def exP3 : LayerParams := { exP1 with sdelay := 2 }

/-- A homogeneous-mode configuration violating the stability bound:
`dr = 1` and `dt = 1` give `const_sr1 = 1`, far beyond the von Neumann
limit; the source is a unit spike at cell `(1,1)`, clearance is zero. -/
def exP4 : LayerParams :=
  { exP1 with
    nolayer := true
    dr := 1
    sduration := 10
    s := fun i j => if i = 1 ∧ j = 1 then 1 else 0
    invr := mkInvr 1 }

/-- `exP1` in homogeneous (`nolayer`) mode with unequal per-layer clearance
rates. -/
def exP5 : LayerParams :=
  { exP1 with nolayer := true, kappa_sr := 0, kappa_sp := 1/4, kappa_so := 1/2 }

/-- A sample non-constant field for the stencil witnesses. -/
def exField : ℕ → ℕ → ℚ := fun i j => (2 * i + 3 * j : ℕ)

/-- Fit-objective inputs around the small configuration `exP3`, with a
raised lower alpha bound `minalpha = 1/2`. -/
def exF : FitParams where
  lp := exP3
  nd := 3
  opt_global_kappa := false
  minalpha := 1/2
  maxalpha := 1
  mintheta := 0
  maxtheta := 1
  minkappa := 0
  maxkappa := 1
  p_data := fun _ => 0

section ConvolveExtraction

variable {M N : ℕ} {a : ℕ → ℕ → ℚ} {s1 s2 : ℚ} {invr : ℕ → ℚ}

/-- Interior cells take the five-point kernel plus the first-derivative term. -/
theorem convolve3_interior {i j : ℕ} (hi1 : 1 ≤ i) (hiM : i + 1 < M)
    (hj2 : 2 ≤ j) (hjN : j + 1 < N) :
    convolve3 M N a s1 s2 invr i j =
      s1 * (a (i-1) j + a i (j-1) - 4 * a i j + a i (j+1) + a (i+1) j)
        + s2 * ((-(a i (j-1)) + a i (j+1)) * invr j) := by
  unfold convolve3
  have hn1 : ¬(i = 0 ∧ j = 0) := by omega
  have hn2 : ¬(i = 0 ∧ j = N - 1) := by omega
  have hn3 : ¬(i = M - 1 ∧ j = 0) := by omega
  have hn4 : ¬(i = M - 1 ∧ j = N - 1) := by omega
  have hn5 : ¬(1 ≤ i ∧ i + 1 < M ∧ j = N - 1) := by omega
  have hn6 : ¬(1 ≤ i ∧ i + 1 < M ∧ j = 0) := by omega
  have hn7 : ¬(i = M - 1 ∧ 1 ≤ j ∧ j + 1 < N) := by omega
  have hn8 : ¬(i = 0 ∧ 1 ≤ j ∧ j + 1 < N) := by omega
  have hn9 : ¬(i = M - 1 ∧ j = 1) := by omega
  have hn10 : ¬(i = 0 ∧ j = 1) := by omega
  have hn11 : ¬(1 ≤ i ∧ i + 1 < M ∧ j = 1) := by omega
  have hy : 1 ≤ i ∧ i + 1 < M ∧ 2 ≤ j ∧ j + 1 < N := by omega
  rw [if_neg hn1, if_neg hn2, if_neg hn3, if_neg hn4, if_neg hn5, if_neg hn6, if_neg hn7,
    if_neg hn8, if_neg hn9, if_neg hn10, if_neg hn11, if_pos hy]

/-- Axis cells (`j = 1`, away from the `i` edges, `N ≥ 3`) take the `L0`
kernel with no first-derivative term. -/
theorem convolve3_axis {i : ℕ} (hi1 : 1 ≤ i) (hiM : i + 1 < M) (hN : 3 ≤ N) :
    convolve3 M N a s1 s2 invr i 1 =
      s1 * (a (i-1) 1 + 2 * a i 0 - 6 * a i 1 + 2 * a i 2 + a (i+1) 1) := by
  unfold convolve3
  have hn1 : ¬(i = 0 ∧ 1 = 0) := by omega
  have hn2 : ¬(i = 0 ∧ 1 = N - 1) := by omega
  have hn3 : ¬(i = M - 1 ∧ 1 = 0) := by omega
  have hn4 : ¬(i = M - 1 ∧ 1 = N - 1) := by omega
  have hn5 : ¬(1 ≤ i ∧ i + 1 < M ∧ 1 = N - 1) := by omega
  have hn6 : ¬(1 ≤ i ∧ i + 1 < M ∧ 1 = 0) := by omega
  have hn7 : ¬(i = M - 1 ∧ 1 ≤ 1 ∧ 1 + 1 < N) := by omega
  have hn8 : ¬(i = 0 ∧ 1 ≤ 1 ∧ 1 + 1 < N) := by omega
  have hn9 : ¬(i = M - 1 ∧ 1 = 1) := by omega
  have hn10 : ¬(i = 0 ∧ 1 = 1) := by omega
  have hy : 1 ≤ i ∧ i + 1 < M ∧ 1 = 1 := by omega
  rw [if_neg hn1, if_neg hn2, if_neg hn3, if_neg hn4, if_neg hn5, if_neg hn6, if_neg hn7,
    if_neg hn8, if_neg hn9, if_neg hn10, if_pos hy]

/-- Top-row cells (`i = 0`, `1 ≤ j ≤ N-2`) drop the `i-1` neighbour.  Note
this includes `j = 1`: the earlier axis write at `(0,1)` is overwritten. -/
theorem convolve3_top {j : ℕ} (hM : 2 ≤ M) (hj1 : 1 ≤ j) (hjN : j + 1 < N) :
    convolve3 M N a s1 s2 invr 0 j =
      s1 * (a 0 (j-1) - 4 * a 0 j + a 0 (j+1) + a 1 j)
        + s2 * ((-(a 0 (j-1)) + a 0 (j+1)) * invr j) := by
  unfold convolve3
  have hn1 : ¬(0 = 0 ∧ j = 0) := by omega
  have hn2 : ¬(0 = 0 ∧ j = N - 1) := by omega
  have hn3 : ¬(0 = M - 1 ∧ j = 0) := by omega
  have hn4 : ¬(0 = M - 1 ∧ j = N - 1) := by omega
  have hn5 : ¬(1 ≤ 0 ∧ 0 + 1 < M ∧ j = N - 1) := by omega
  have hn6 : ¬(1 ≤ 0 ∧ 0 + 1 < M ∧ j = 0) := by omega
  have hn7 : ¬(0 = M - 1 ∧ 1 ≤ j ∧ j + 1 < N) := by omega
  have hy : 0 = 0 ∧ 1 ≤ j ∧ j + 1 < N := by omega
  rw [if_neg hn1, if_neg hn2, if_neg hn3, if_neg hn4, if_neg hn5, if_neg hn6, if_neg hn7,
    if_pos hy]

/-- Bottom-row cells (`i = M-1`, `1 ≤ j ≤ N-2`) drop the `i+1` neighbour. -/
theorem convolve3_bottom {j : ℕ} (hM : 2 ≤ M) (hj1 : 1 ≤ j) (hjN : j + 1 < N) :
    convolve3 M N a s1 s2 invr (M-1) j =
      s1 * (a (M-2) j + a (M-1) (j-1) - 4 * a (M-1) j + a (M-1) (j+1))
        + s2 * ((-(a (M-1) (j-1)) + a (M-1) (j+1)) * invr j) := by
  unfold convolve3
  have hn1 : ¬(M - 1 = 0 ∧ j = 0) := by omega
  have hn2 : ¬(M - 1 = 0 ∧ j = N - 1) := by omega
  have hn3 : ¬(M - 1 = M - 1 ∧ j = 0) := by omega
  have hn4 : ¬(M - 1 = M - 1 ∧ j = N - 1) := by omega
  have hn5 : ¬(1 ≤ M - 1 ∧ M - 1 + 1 < M ∧ j = N - 1) := by omega
  have hn6 : ¬(1 ≤ M - 1 ∧ M - 1 + 1 < M ∧ j = 0) := by omega
  have hy : M - 1 = M - 1 ∧ 1 ≤ j ∧ j + 1 < N := by omega
  rw [if_neg hn1, if_neg hn2, if_neg hn3, if_neg hn4, if_neg hn5, if_neg hn6, if_pos hy]

/-- Left-column cells (`j = 0`, `1 ≤ i ≤ M-2`) drop the `j-1` neighbour and
use `invr 0` with a positive sign. -/
theorem convolve3_left {i : ℕ} (hi1 : 1 ≤ i) (hiM : i + 1 < M) (hN : 2 ≤ N) :
    convolve3 M N a s1 s2 invr i 0 =
      s1 * (a (i-1) 0 - 4 * a i 0 + a i 1 + a (i+1) 0)
        + s2 * (a i 1 * invr 0) := by
  unfold convolve3
  have hn1 : ¬(i = 0 ∧ 0 = 0) := by omega
  have hn2 : ¬(i = 0 ∧ 0 = N - 1) := by omega
  have hn3 : ¬(i = M - 1 ∧ 0 = 0) := by omega
  have hn4 : ¬(i = M - 1 ∧ 0 = N - 1) := by omega
  have hn5 : ¬(1 ≤ i ∧ i + 1 < M ∧ 0 = N - 1) := by omega
  have hy : 1 ≤ i ∧ i + 1 < M ∧ 0 = 0 := by omega
  rw [if_neg hn1, if_neg hn2, if_neg hn3, if_neg hn4, if_neg hn5, if_pos hy]

/-- Right-column cells (`j = N-1`, `1 ≤ i ≤ M-2`) drop the `j+1` neighbour
and use `-invr (N-1)` on the `j-1` neighbour. -/
theorem convolve3_right {i : ℕ} (hi1 : 1 ≤ i) (hiM : i + 1 < M) (hN : 2 ≤ N) :
    convolve3 M N a s1 s2 invr i (N-1) =
      s1 * (a (i-1) (N-1) + a i (N-2) - 4 * a i (N-1) + a (i+1) (N-1))
        + s2 * (-(a i (N-2)) * invr (N-1)) := by
  unfold convolve3
  have hn1 : ¬(i = 0 ∧ N - 1 = 0) := by omega
  have hn2 : ¬(i = 0 ∧ N - 1 = N - 1) := by omega
  have hn3 : ¬(i = M - 1 ∧ N - 1 = 0) := by omega
  have hn4 : ¬(i = M - 1 ∧ N - 1 = N - 1) := by omega
  have hy : 1 ≤ i ∧ i + 1 < M ∧ N - 1 = N - 1 := by omega
  rw [if_neg hn1, if_neg hn2, if_neg hn3, if_neg hn4, if_pos hy]

/-- Corner `(0,0)`. -/
theorem convolve3_corner00 :
    convolve3 M N a s1 s2 invr 0 0 =
      s1 * (-4 * a 0 0 + a 0 1 + a 1 0) + s2 * (a 0 1 * invr 0) := by
  unfold convolve3
  have hy : 0 = 0 ∧ 0 = 0 := by omega
  rw [if_pos hy]

/-- Corner `(0,N-1)`. -/
theorem convolve3_corner0N (hN : 2 ≤ N) :
    convolve3 M N a s1 s2 invr 0 (N-1) =
      s1 * (a 0 (N-2) - 4 * a 0 (N-1) + a 1 (N-1))
        + s2 * (-(a 0 (N-2)) * invr (N-1)) := by
  unfold convolve3
  have hn1 : ¬(0 = 0 ∧ N - 1 = 0) := by omega
  have hy : 0 = 0 ∧ N - 1 = N - 1 := by omega
  rw [if_neg hn1, if_pos hy]

/-- Corner `(M-1,0)`. -/
theorem convolve3_cornerM0 (hM : 2 ≤ M) :
    convolve3 M N a s1 s2 invr (M-1) 0 =
      s1 * (a (M-2) 0 - 4 * a (M-1) 0 + a (M-1) 1)
        + s2 * (a (M-1) 1 * invr 0) := by
  unfold convolve3
  have hn1 : ¬(M - 1 = 0 ∧ 0 = 0) := by omega
  have hn2 : ¬(M - 1 = 0 ∧ 0 = N - 1) := by omega
  have hy : M - 1 = M - 1 ∧ 0 = 0 := by omega
  rw [if_neg hn1, if_neg hn2, if_pos hy]

/-- Corner `(M-1,N-1)`. -/
theorem convolve3_cornerMN (hM : 2 ≤ M) (hN : 2 ≤ N) :
    convolve3 M N a s1 s2 invr (M-1) (N-1) =
      s1 * (a (M-2) (N-1) + a (M-1) (N-2) - 4 * a (M-1) (N-1))
        + s2 * (-(a (M-1) (N-2)) * invr (N-1)) := by
  unfold convolve3
  have hn1 : ¬(M - 1 = 0 ∧ N - 1 = 0) := by omega
  have hn2 : ¬(M - 1 = 0 ∧ N - 1 = N - 1) := by omega
  have hn3 : ¬(M - 1 = M - 1 ∧ N - 1 = 0) := by omega
  have hy : M - 1 = M - 1 ∧ N - 1 = N - 1 := by omega
  rw [if_neg hn1, if_neg hn2, if_neg hn3, if_pos hy]

end ConvolveExtraction

/-- `lroundQ` on an integer is that integer. -/
theorem lroundQ_intCast (n : ℤ) : lroundQ (n : ℚ) = n := by
  have hhalf : ⌊(1/2 : ℚ)⌋ = 0 := by
    rw [Int.floor_eq_zero_iff]
    constructor <;> norm_num
  unfold lroundQ
  split_ifs with h
  · rw [Int.floor_int_add, hhalf, add_zero]
  · push_neg at h
    rw [show (-(n : ℚ) + 1/2) = ((-n : ℤ) : ℚ) + 1/2 by push_cast; ring,
      Int.floor_int_add, hhalf, add_zero, neg_neg]

/-- The delay step count of the long-delay example configuration. -/
theorem ndsZ_exP2 : ndsZ exP2 = 10 := by
  have h : exP2.sdelay / exP2.dt = ((10 : ℤ) : ℚ) := by
    norm_num [exP2, exP1]
  unfold ndsZ
  rw [h, lroundQ_intCast]

/-- The delay step count of the short-delay example configuration. -/
theorem ndsZ_exP3 : ndsZ exP3 = 2 := by
  have h : exP3.sdelay / exP3.dt = ((2 : ℤ) : ℚ) := by
    norm_num [exP3, exP1]
  unfold ndsZ
  rw [h, lroundQ_intCast]

/-!
## Claims
-/

/-- C1: in layered mode the stepper computes the interface value `cb` at the
SR/SP boundary as the `D*·α`-weighted average
`(D*_sr·α_sr·c[iz1,j] + D*_sp·α_sp·c[iz1+1,j])/(D*_sr·α_sr + D*_sp·α_sp)`
(and analogously at SP/SO), and each sub-grid carries one ghost row whose
value is `2·cb` minus the nearest real neighbour row of that layer; the
layered step is built from exactly these sub-grids. -/
theorem claim_C1_interface_ghosts (P : LayerParams) (c : ℕ → ℕ → ℚ) (j k : ℕ) :
    c_sr P c (P.iz1 + 1) j
        = 2 * ((dstar_sr P * P.alpha_sr * c P.iz1 j
              + dstar_sp P * P.alpha_sp * c (P.iz1 + 1) j)
            / (dstar_sr P * P.alpha_sr + dstar_sp P * P.alpha_sp))
          - c P.iz1 j
    ∧ c_sp P c 0 j
        = 2 * ((dstar_sr P * P.alpha_sr * c P.iz1 j
              + dstar_sp P * P.alpha_sp * c (P.iz1 + 1) j)
            / (dstar_sr P * P.alpha_sr + dstar_sp P * P.alpha_sp))
          - c (P.iz1 + 1) j
    ∧ c_sp P c (P.iz2 - P.iz1 + 1) j
        = 2 * ((dstar_sp P * P.alpha_sp * c P.iz2 j
              + dstar_so P * P.alpha_so * c (P.iz2 + 1) j)
            / (dstar_sp P * P.alpha_sp + dstar_so P * P.alpha_so))
          - c P.iz2 j
    ∧ c_so P c 0 j
        = 2 * ((dstar_sp P * P.alpha_sp * c P.iz2 j
              + dstar_so P * P.alpha_so * c (P.iz2 + 1) j)
            / (dstar_sp P * P.alpha_sp + dstar_so P * P.alpha_so))
          - c (P.iz2 + 1) j
    ∧ (P.nolayer = false →
        layerStep P k c
          = symmetrize P (clearanceStep P (addSource P k (diffuseLayered P c)))) := by
  refine ⟨?_, ?_, ?_, ?_, ?_⟩
  · simp [c_sr, cb_sr]
  · simp [c_sp, cb_sr]
  · simp [c_sp, cb_so]
  · simp [c_so, cb_so]
  · intro h
    unfold layerStep
    rw [h]
    simp

/-- Witness for C1 at a concrete configuration and field. -/
theorem claim_C1_interface_ghosts_witness :
    layerStep exP1 0 exField
      = symmetrize exP1 (clearanceStep exP1 (addSource exP1 0 (diffuseLayered exP1 exField))) :=
  (claim_C1_interface_ghosts exP1 exField 0 0).2.2.2.2 rfl

/-- C2: interior cells get the `[[0,1,0],[1,-4,1],[0,1,0]]` kernel times
`scale1` plus the centred first-derivative term, and axis cells (`j = 1`)
get the `[[0,1,0],[2,-6,2],[0,1,0]]` kernel times `scale1` with no
first-derivative term. -/
theorem claim_C2_stencil (M N : ℕ) (C : ℕ → ℕ → ℚ) (scale1 scale2 : ℚ)
    (invr : ℕ → ℚ) :
    (∀ i j, 1 ≤ i → i + 1 < M → 2 ≤ j → j + 1 < N →
      convolve3 M N C scale1 scale2 invr i j
        = scale1 * (C (i-1) j + C i (j-1) - 4 * C i j + C i (j+1) + C (i+1) j)
          + scale2 * ((-(C i (j-1)) + C i (j+1)) * invr j))
    ∧ (∀ i, 1 ≤ i → i + 1 < M → 3 ≤ N →
      convolve3 M N C scale1 scale2 invr i 1
        = scale1 * (C (i-1) 1 + 2 * C i 0 - 6 * C i 1 + 2 * C i 2 + C (i+1) 1)) :=
  ⟨fun _ _ h1 h2 h3 h4 => convolve3_interior h1 h2 h3 h4,
   fun _ h1 h2 h3 => convolve3_axis h1 h2 h3⟩

/-- Witness for C2 at a concrete field, shape `4 × 5`, at an interior cell
and an axis cell. -/
theorem claim_C2_stencil_witness :
    convolve3 4 5 exField 2 3 (mkInvr 1) 1 2
      = 2 * (exField 0 2 + exField 1 1 - 4 * exField 1 2 + exField 1 3 + exField 2 2)
        + 3 * ((-(exField 1 1) + exField 1 3) * mkInvr 1 2)
    ∧ convolve3 4 5 exField 2 3 (mkInvr 1) 1 1
      = 2 * (exField 0 1 + 2 * exField 1 0 - 6 * exField 1 1 + 2 * exField 1 2
          + exField 2 1) :=
  ⟨(claim_C2_stencil 4 5 exField 2 3 (mkInvr 1)).1 1 2
      (Nat.le_refl 1) (by omega) (Nat.le_refl 2) (by omega),
   (claim_C2_stencil 4 5 exField 2 3 (mkInvr 1)).2 1
      (Nat.le_refl 1) (by omega) (by omega)⟩

/-- C3 fails on the code: on the all-ones field with `scale1 = 1` the
stencil output at the domain-edge cell `(0,1)` is `-1`, not `0` — the i=0
row pass overwrites the axis write at `(0,1)` with a one-sided `-4` stencil
whose dropped neighbour leaves `-scale1·v`. -/
theorem claim_C3_counterexample :
    convolve3 3 3 (fun _ _ => 1) 1 (1/2) (mkInvr 1) 0 1 ≠ 0 := by
  norm_num [convolve3, mkInvr]

/-- C3 amended: on a spatially constant field the stencil output is zero at
every non-edge cell (`1 ≤ i ≤ M-2`, `1 ≤ j ≤ N-2`, covering the interior
and the axis column); at domain-edge cells the one-sided stencils generally
give nonzero values. -/
theorem claim_C3_amended (M N : ℕ) (v scale1 scale2 : ℚ) (invr : ℕ → ℚ)
    (i j : ℕ) (hi1 : 1 ≤ i) (hiM : i + 1 < M) (hj1 : 1 ≤ j) (hjN : j + 1 < N) :
    convolve3 M N (fun _ _ => v) scale1 scale2 invr i j = 0 := by
  by_cases hj : j = 1
  · subst hj
    rw [convolve3_axis hi1 hiM (by omega)]
    ring
  · rw [convolve3_interior hi1 hiM (by omega) hjN]
    ring

/-- Witness for the amended C3 at a concrete non-edge cell. -/
theorem claim_C3_amended_witness :
    convolve3 3 4 (fun _ _ => 5) 2 3 (mkInvr 1) 1 1 = 0 :=
  claim_C3_amended 3 4 5 2 3 (mkInvr 1) 1 1
    (Nat.le_refl 1) (by omega) (Nat.le_refl 1) (by omega)

/-- C4: the homogeneous model returns exactly `0` for `t ≤ sdelay`,
`A·erfc(d/(2·√(D*·(t-sdelay))))` for `sdelay < t ≤ sdelay+sduration`, and
that minus `A·erfc(d/(2·√(D*·(t-sdelay-sduration))))` beyond, with
`A = samplitude/(4π·α·D*·d)` and `D* = θ·D_free` (`erfcF`, `sqrtF`, `piv`
abstract the libm `erfc`, `sqrt` and `M_PI`). -/
theorem claim_C4_homogeneous (erfcF sqrtF : ℚ → ℚ) (piv : ℚ) (nt : ℕ)
    (spdist samplitude sdelay sduration kappa dfree alpha theta : ℚ)
    (t : ℕ → ℚ) (i : ℕ) (hi : i < nt) (hdur : 0 ≤ sduration) :
    (t i ≤ sdelay →
      rti_theory erfcF sqrtF piv nt spdist samplitude sdelay sduration
        kappa dfree alpha theta t i = 0)
    ∧ (sdelay < t i → t i ≤ sdelay + sduration →
      rti_theory erfcF sqrtF piv nt spdist samplitude sdelay sduration
        kappa dfree alpha theta t i
        = samplitude / (4 * piv * alpha * (theta * dfree) * spdist)
          * erfcF (spdist / (2 * sqrtF (theta * dfree * (t i - sdelay)))))
    ∧ (sdelay + sduration < t i →
      rti_theory erfcF sqrtF piv nt spdist samplitude sdelay sduration
        kappa dfree alpha theta t i
        = samplitude / (4 * piv * alpha * (theta * dfree) * spdist)
          * erfcF (spdist / (2 * sqrtF (theta * dfree * (t i - sdelay))))
          - samplitude / (4 * piv * alpha * (theta * dfree) * spdist)
            * erfcF (spdist / (2 * sqrtF (theta * dfree * (t i - sdelay - sduration))))) := by
  refine ⟨fun h => ?_, fun h1 h2 => ?_, fun h => ?_⟩
  · unfold rti_theory
    rw [if_pos hi, if_pos h]
  · unfold rti_theory
    rw [if_pos hi, if_neg (not_le.mpr h1), if_neg (not_lt.mpr h2)]
  · unfold rti_theory
    rw [if_pos hi, if_neg (not_le.mpr (by linarith)), if_pos h, sub_sub]

/-- Witness for C4: all three branches exercised at concrete inputs. -/
theorem claim_C4_homogeneous_witness :
    rti_theory id id 3 3 1 1 1 1 0 1 1 1 (fun _ => 0) 0 = 0
    ∧ rti_theory id id 3 3 1 1 1 1 0 1 1 1 (fun _ => 2) 0
        = 1 / (4 * 3 * 1 * (1 * 1) * 1) * id (1 / (2 * id (1 * 1 * ((2 : ℚ) - 1))))
    ∧ rti_theory id id 3 3 1 1 1 1 0 1 1 1 (fun _ => 3) 0
        = 1 / (4 * 3 * 1 * (1 * 1) * 1) * id (1 / (2 * id (1 * 1 * ((3 : ℚ) - 1))))
          - 1 / (4 * 3 * 1 * (1 * 1) * 1) * id (1 / (2 * id (1 * 1 * ((3 : ℚ) - 1 - 1)))) :=
  ⟨(claim_C4_homogeneous id id 3 3 1 1 1 1 0 1 1 1 (fun _ => 0) 0
      (by omega) zero_le_one).1 (by norm_num),
   (claim_C4_homogeneous id id 3 3 1 1 1 1 0 1 1 1 (fun _ => 2) 0
      (by omega) zero_le_one).2.1 (by norm_num) (by norm_num),
   (claim_C4_homogeneous id id 3 3 1 1 1 1 0 1 1 1 (fun _ => 3) 0
      (by omega) zero_le_one).2.2 (by norm_num)⟩

/-- C5: the solver aborts with a configuration error iff
`lround(sdelay/dt) ≥ nt`; otherwise it runs and the probe curve is exactly
`0` at every index below `lround(sdelay/dt)`. -/
theorem claim_C5_delay_check (P : LayerParams) :
    ((P.nt : ℤ) ≤ ndsZ P → calcDiffusionCurveLayer P = none)
    ∧ (ndsZ P < (P.nt : ℤ) →
        calcDiffusionCurveLayer P = some (probeCurve P)
        ∧ ∀ k : ℕ, (k : ℤ) < ndsZ P → probeCurve P k = 0) := by
  refine ⟨fun h => ?_, fun h => ⟨?_, fun k hk => ?_⟩⟩
  · unfold calcDiffusionCurveLayer
    rw [if_pos h]
  · unfold calcDiffusionCurveLayer
    rw [if_neg (not_le.mpr h)]
  · unfold probeCurve
    rw [if_pos (by unfold ndsN; omega)]

/-- Witness for C5: a delayed-too-long configuration aborts, a short delay
runs with a zero probe value during the delay. -/
theorem claim_C5_delay_check_witness :
    calcDiffusionCurveLayer exP2 = none ∧ probeCurve exP3 1 = 0 :=
  ⟨(claim_C5_delay_check exP2).1 (by rw [ndsZ_exP2]; norm_num [exP2, exP1]),
   ((claim_C5_delay_check exP3).2 (by rw [ndsZ_exP3]; norm_num [exP3, exP1])).2 1
     (by rw [ndsZ_exP3]; norm_num)⟩

/-- C6: after every completed timestep, column 0 equals column 2 in every
row of the grid, in layered and homogeneous configurations alike. -/
theorem claim_C6_column_symmetry (P : LayerParams) (n i : ℕ)
    (hn : 1 ≤ n) (hi : i < P.nz) :
    cAfter P n i 0 = cAfter P n i 2 := by
  obtain ⟨m, rfl⟩ : ∃ m, n = m + 1 := ⟨n - 1, by omega⟩
  show layerStep P _ (cAfter P m) i 0 = layerStep P _ (cAfter P m) i 2
  unfold layerStep symmetrize
  simp [hi]

/-- Witness for C6 at a concrete configuration, one step, row 0. -/
theorem claim_C6_column_symmetry_witness :
    cAfter exP4 1 0 0 = cAfter exP4 1 0 2 :=
  claim_C6_column_symmetry exP4 1 0 (Nat.le_refl 1) (by norm_num [exP4, exP1])

/-- C8 fails on the code: the 0.001 floor applied to the alpha candidate
makes the objective identical for two candidates with different violation
magnitudes of the `minalpha` bound (candidates `-1` and `-2` with
`minalpha = 1/2`), so the objective does not strictly increase with the
violation magnitude. -/
theorem claim_C8_counterexample :
    calc_mse_fit_layer exF (-1, 1/4, 0) = calc_mse_fit_layer exF (-2, 1/4, 0)
    ∧ exF.minalpha - (-1) < exF.minalpha - (-2) := by
  refine ⟨?_, ?_⟩
  · have h : fitCandidateParams exF (-1, 1/4, 0) = fitCandidateParams exF (-2, 1/4, 0) := by
      unfold fitCandidateParams clampLow
      norm_num
    unfold calc_mse_fit_layer
    rw [h]
  · norm_num [exF]

/-- C8 amended: the objective equals the resampled curve MSE plus, for each
constrained parameter, a penalty of 10 times each bound violation (computed
on the floored alpha/theta and raw kappa); the penalty term itself strictly
increases with the violation magnitude on either side of the bounds. -/
theorem claim_C8_amended (F : FitParams) (x : ℚ × ℚ × ℚ) (p : ℕ → ℚ)
    (hp : calcDiffusionCurveLayer (fitCandidateParams F x) = some p) :
    calc_mse_fit_layer F x
      = some (baseMse F p
          + pen1 F.minalpha F.maxalpha (clampLow x.1)
          + pen1 F.mintheta F.maxtheta (clampLow x.2.1)
          + pen1 F.minkappa F.maxkappa x.2.2)
    ∧ (∀ lo hi y1 y2 : ℚ, lo ≤ hi → hi < y1 → y1 < y2 →
        pen1 lo hi y1 < pen1 lo hi y2)
    ∧ (∀ lo hi y1 y2 : ℚ, lo ≤ hi → y2 < y1 → y1 < lo →
        pen1 lo hi y1 < pen1 lo hi y2) := by
  refine ⟨?_, fun lo hi y1 y2 hb h1 h2 => ?_, fun lo hi y1 y2 hb h1 h2 => ?_⟩
  · simp only [calc_mse_fit_layer]
    rw [hp]
    simp [fitCandidateParams]
  · unfold pen1
    split_ifs <;> linarith
  · unfold pen1
    split_ifs <;> linarith

/-- Witness for the amended C8 at a concrete in-bounds candidate. -/
theorem claim_C8_amended_witness :
    calc_mse_fit_layer exF (1, 1, 0)
      = some (baseMse exF (probeCurve (fitCandidateParams exF (1, 1, 0)))
          + pen1 exF.minalpha exF.maxalpha (clampLow 1)
          + pen1 exF.mintheta exF.maxtheta (clampLow 1)
          + pen1 exF.minkappa exF.maxkappa 0)
    ∧ pen1 0 1 2 < pen1 0 1 3 := by
  have hlt : ndsZ (fitCandidateParams exF (1, 1, 0))
      < ((fitCandidateParams exF (1, 1, 0)).nt : ℤ) := by
    have h : (fitCandidateParams exF (1, 1, 0)).sdelay
        / (fitCandidateParams exF (1, 1, 0)).dt = ((2 : ℤ) : ℚ) := by
      norm_num [fitCandidateParams, exF, exP3, exP1]
    unfold ndsZ
    rw [h, lroundQ_intCast]
    norm_num [fitCandidateParams, exF, exP3, exP1]
  have hp : calcDiffusionCurveLayer (fitCandidateParams exF (1, 1, 0))
      = some (probeCurve (fitCandidateParams exF (1, 1, 0))) := by
    unfold calcDiffusionCurveLayer
    rw [if_neg (not_le.mpr hlt)]
  exact ⟨(claim_C8_amended exF (1, 1, 0)
      (probeCurve (fitCandidateParams exF (1, 1, 0))) hp).1,
    (claim_C8_amended exF (1, 1, 0)
      (probeCurve (fitCandidateParams exF (1, 1, 0))) hp).2.1
      0 1 2 3 (by norm_num) (by norm_num) (by norm_num)⟩

/-- C9 fails as stated: the injected amount carries an extra factor `dt`
relative to the claimed `rate · 4/(π·Δr²·Δz·α)` scaling; with `dt = 2` and
all other quantities `1` (and `π` abstracted as `3`) the stored amount is
`8/3`, not `4/3`. -/
theorem claim_C9_counterexample :
    sourceArr 3 0 1 1 1 1 (sourceAmplitude faradayC 1) 2 1 1 3 1 1 1 1
      ≠ sourceAmplitude faradayC 1 * 4 / (3 * (1 * 1) * 1 * 1) := by
  norm_num [sourceArr, alphasArr, sourceAmplitude, faradayC]

/-- C9 amended: the current is converted to the molar rate
`current·transportNumber/Faraday`, and the amount injected at the source
cell equals that rate times `Δt`, scaled by `4/(π·Δr²·Δz·α)` with `α` the
volume fraction of the layer containing the cell. -/
theorem claim_C9_amended (nz iz1 iz2 : ℕ) (asr asp aso crnt trn dt dr dz piv : ℚ)
    (isrc jsrc : ℕ) :
    sourceAmplitude crnt trn = crnt * trn / faradayC
    ∧ sourceArr nz iz1 iz2 asr asp aso (sourceAmplitude crnt trn) dt dr dz piv
        isrc jsrc isrc jsrc
      = sourceAmplitude crnt trn * dt * 4
          / (piv * (dr * dr) * dz * alphasArr nz iz1 iz2 asr asp aso isrc) := by
  refine ⟨rfl, ?_⟩
  unfold sourceArr
  rw [if_pos ⟨rfl, rfl⟩]
  simp only [div_eq_mul_inv, mul_inv, one_div]
  ring

/-- C10: in homogeneous mode each step applies the Laplacian once to the
whole field with the SR constants, but clearance still acts per layer: the
post-step value at any non-mirror column equals the diffused-plus-source
value times `1-κ_sr·Δt` on rows `0..iz1`, `1-κ_sp·Δt` on rows `iz1+1..iz2`,
and `1-κ_so·Δt` on rows `iz2+1..nz-1`. -/
theorem claim_C10_nolayer_clearance (P : LayerParams) (c : ℕ → ℕ → ℚ) (k i j : ℕ)
    (hno : P.nolayer = true) (hi : i < P.nz) (hj1 : 1 ≤ j) (hj : j < P.nr + 1) :
    layerStep P k c i j
      = (c i j + convolve3 P.nz (P.nr + 1) c (const_sr1 P) (const_sr2 P) P.invr i j
          + (if P.t k + P.dt / 2 < P.sdelay + P.sduration then P.s i j else 0))
        * (if i < P.iz1 + 1 then 1 - P.kappa_sr * P.dt
           else if i < P.iz2 + 1 then 1 - P.kappa_sp * P.dt
           else 1 - P.kappa_so * P.dt) := by
  have hd : (if P.nolayer then diffuseNolayer P c else diffuseLayered P c)
      = diffuseNolayer P c := by
    rw [hno]
    simp
  unfold layerStep
  rw [hd]
  unfold symmetrize
  rw [if_neg (by omega)]
  have hg : i < P.nz ∧ j < P.nr + 1 := ⟨hi, hj⟩
  unfold clearanceStep
  rw [if_pos hg]
  unfold addSource diffuseNolayer
  rw [if_pos hg]
  by_cases hsrc : P.t k + P.dt / 2 < P.sdelay + P.sduration
  · have hg3 : P.t k + P.dt / 2 < P.sdelay + P.sduration ∧ i < P.nz ∧ j < P.nr + 1 :=
      ⟨hsrc, hi, hj⟩
    rw [if_pos hg3, if_pos hsrc]
    split_ifs <;> ring
  · have hg3 : ¬(P.t k + P.dt / 2 < P.sdelay + P.sduration ∧ i < P.nz ∧ j < P.nr + 1) :=
      fun h => hsrc h.1
    rw [if_neg hg3, if_neg hsrc]
    split_ifs <;> ring

/-- Witness for C10 at a concrete homogeneous configuration with unequal
per-layer clearance rates, one row from each layer range. -/
theorem claim_C10_nolayer_clearance_witness :
    layerStep exP5 0 exField 2 1
      = (exField 2 1
          + convolve3 exP5.nz (exP5.nr + 1) exField (const_sr1 exP5) (const_sr2 exP5)
              exP5.invr 2 1
          + (if exP5.t 0 + exP5.dt / 2 < exP5.sdelay + exP5.sduration
             then exP5.s 2 1 else 0))
        * (if 2 < exP5.iz1 + 1 then 1 - exP5.kappa_sr * exP5.dt
           else if 2 < exP5.iz2 + 1 then 1 - exP5.kappa_sp * exP5.dt
           else 1 - exP5.kappa_so * exP5.dt) :=
  claim_C10_nolayer_clearance exP5 exField 0 2 1
    rfl (by norm_num [exP5, exP1]) (Nat.le_refl 1) (by norm_num [exP5, exP1])

/-- The delay step count of the unstable example configuration is zero. -/
theorem ndsN_exP4 : ndsN exP4 = 0 := by
  have h : exP4.sdelay / exP4.dt = ((0 : ℤ) : ℚ) := by
    norm_num [exP4, exP1]
  unfold ndsN ndsZ
  rw [h, lroundQ_intCast]
  rfl

/-- C7 fails as stated: `exP4` has a non-negative source, zero clearance
rates (so `κ ∈ [0, 1/Δt)`), and non-negative initial and boundary values,
yet after one timestep the cell `(1,1)` holds `-4 < 0` — the configuration
violates the von Neumann stability bound (`const_sr1 = 1`), which the claim
does not require. -/
theorem claim_C7_counterexample : cAfter exP4 1 1 1 < 0 := by
  show layerStep exP4 (ndsN exP4 + 0) (cAfter exP4 0) 1 1 < 0
  rw [ndsN_exP4]
  show layerStep exP4 0 exP4.s 1 1 < 0
  norm_num [layerStep, symmetrize, clearanceStep, addSource, diffuseNolayer,
    convolve3, const_sr1, const_sr2, dstar_sr, mkInvr, exP4, exP1]

/-!
## Positivity machinery for the amended C7 claim

A cell updated by `c + convolve3 ...` stays non-negative when every stencil
coefficient is non-negative.  The lemmas below establish this per cell, with
the row itself non-negative, each vertical neighbour bounded below by minus
the centre value (the exact property of the ghost rows), at most one of the
two vertical neighbours a ghost, and a `7·scale1 ≤ 1` stability bound.
-/

/-- The `invr` array of the drivers is non-negative for positive `dr`. -/
theorem mkInvr_nonneg {dr : ℚ} (hdr : 0 < dr) (j : ℕ) : 0 ≤ mkInvr dr j := by
  unfold mkInvr
  split_ifs with h0 h1
  · positivity
  · exact le_refl 0
  · have hj2 : (2 : ℚ) ≤ (j : ℚ) := by
      exact_mod_cast (by omega : 2 ≤ j)
    have hpos : 0 < ((j : ℚ) - 1) * dr := mul_pos (by linarith) hdr
    exact le_of_lt (div_pos one_pos hpos)

/-- For `scale2 = x/(2·dr)` and the drivers' `invr`, the product
`scale2 · invr j` is non-negative and at most half of `scale1 = x/dr²`. -/
theorem scaleBounds (x dr : ℚ) (hx : 0 ≤ x) (hdr : 0 < dr) (j : ℕ) :
    0 ≤ x / (2 * dr) * mkInvr dr j
    ∧ 2 * (x / (2 * dr) * mkInvr dr j) ≤ x / (dr * dr) := by
  have hdr0 : dr ≠ 0 := ne_of_gt hdr
  refine ⟨mul_nonneg (div_nonneg hx (by linarith)) (mkInvr_nonneg hdr j), ?_⟩
  unfold mkInvr
  split_ifs with h0 h1
  · have key : 2 * (x / (2 * dr) * (1 / dr)) = x / (dr * dr) := by
      field_simp
      ring
    rw [key]
  · have : 0 ≤ x / (dr * dr) := div_nonneg hx (by positivity)
    linarith
  · have hj2 : (2 : ℚ) ≤ (j : ℚ) := by
      exact_mod_cast (by omega : 2 ≤ j)
    have hj1 : (0 : ℚ) < (j : ℚ) - 1 := by linarith
    have key : 2 * (x / (2 * dr) * (1 / (((j : ℚ) - 1) * dr)))
        = x / (((j : ℚ) - 1) * (dr * dr)) := by
      field_simp
      ring
    rw [key, div_le_div_iff (mul_pos hj1 (by positivity)) (by positivity)]
    nlinarith [mul_nonneg (mul_nonneg hx (mul_self_nonneg dr))
      (by linarith : (0 : ℚ) ≤ (j : ℚ) - 2)]

/-- Per-cell positivity of the explicit update `a + convolve3 ...`: if the
cell's row is non-negative, each vertical neighbour is at least minus the
centre value, at most one vertical neighbour is a ghost (the other is
non-negative), and `7·scale1 ≤ 1` with non-negative first-derivative
coefficients bounded by `scale1/2`, then the updated value is
non-negative. -/
theorem convolve3_cell_nonneg (M N : ℕ) (a : ℕ → ℕ → ℚ) (s1 s2 : ℚ)
    (invr : ℕ → ℚ) (i j : ℕ)
    (hM : 2 ≤ M) (hN : 3 ≤ N) (hiM : i ≤ M - 1) (hj : j < N)
    (hs1 : 0 ≤ s1) (hcfl : 7 * s1 ≤ 1)
    (hq0 : ∀ jq, 0 ≤ s2 * invr jq) (hq2 : ∀ jq, 2 * (s2 * invr jq) ≤ s1)
    (hrow : ∀ jr, jr < N → 0 ≤ a i jr)
    (hup : 1 ≤ i → -(a i j) ≤ a (i - 1) j)
    (hdown : i + 1 ≤ M - 1 → -(a i j) ≤ a (i + 1) j)
    (hone : (1 ≤ i → 0 ≤ a (i - 1) j) ∨ (i + 1 ≤ M - 1 → 0 ≤ a (i + 1) j)) :
    0 ≤ a i j + convolve3 M N a s1 s2 invr i j := by
  have ha : 0 ≤ a i j := hrow j hj
  by_cases hi0 : i = 0
  · subst hi0
    have hd : -(a 0 j) ≤ a 1 j := hdown (by omega)
    by_cases hj0 : j = 0
    · subst hj0
      rw [convolve3_corner00]
      have h01 : 0 ≤ a 0 1 := hrow 1 (by omega)
      have t1 : 0 ≤ a 0 0 * (1 - 5 * s1) := mul_nonneg ha (by linarith)
      have t2 : 0 ≤ s1 * (a 0 0 + a 1 0) := mul_nonneg hs1 (by linarith)
      have t3 : 0 ≤ a 0 1 * (s1 + s2 * invr 0) :=
        mul_nonneg h01 (by linarith [hq0 0])
      linarith [t1, t2, t3]
    · by_cases hjN : j = N - 1
      · subst hjN
        rw [convolve3_corner0N (by omega)]
        have hl : 0 ≤ a 0 (N - 2) := hrow (N - 2) (by omega)
        have t1 : 0 ≤ a 0 (N - 1) * (1 - 5 * s1) := mul_nonneg ha (by linarith)
        have t2 : 0 ≤ s1 * (a 0 (N - 1) + a 1 (N - 1)) := mul_nonneg hs1 (by linarith)
        have t3 : 0 ≤ a 0 (N - 2) * (s1 - s2 * invr (N - 1)) :=
          mul_nonneg hl (by linarith [hq0 (N - 1), hq2 (N - 1)])
        linarith [t1, t2, t3]
      · rw [convolve3_top hM (by omega) (by omega)]
        have hl : 0 ≤ a 0 (j - 1) := hrow (j - 1) (by omega)
        have hr : 0 ≤ a 0 (j + 1) := hrow (j + 1) (by omega)
        have t1 : 0 ≤ a 0 j * (1 - 5 * s1) := mul_nonneg ha (by linarith)
        have t2 : 0 ≤ s1 * (a 0 j + a 1 j) := mul_nonneg hs1 (by linarith)
        have t3 : 0 ≤ a 0 (j - 1) * (s1 - s2 * invr j) :=
          mul_nonneg hl (by linarith [hq0 j, hq2 j])
        have t4 : 0 ≤ a 0 (j + 1) * (s1 + s2 * invr j) :=
          mul_nonneg hr (by linarith [hq0 j])
        linarith [t1, t2, t3, t4]
  · by_cases hiM1 : i = M - 1
    · have hu : -(a i j) ≤ a (i - 1) j := hup (by omega)
      by_cases hj0 : j = 0
      · subst hj0
        subst hiM1
        rw [convolve3_cornerM0 hM]
        have h1 : 0 ≤ a (M - 1) 1 := hrow 1 (by omega)
        have t1 : 0 ≤ a (M - 1) 0 * (1 - 5 * s1) := mul_nonneg ha (by linarith)
        have t2 : 0 ≤ s1 * (a (M - 1) 0 + a (M - 1 - 1) 0) := mul_nonneg hs1 (by linarith)
        have t3 : 0 ≤ a (M - 1) 1 * (s1 + s2 * invr 0) :=
          mul_nonneg h1 (by linarith [hq0 0])
        have hM2 : M - 1 - 1 = M - 2 := by omega
        rw [hM2] at t2
        linarith [t1, t2, t3]
      · by_cases hjN : j = N - 1
        · subst hjN
          subst hiM1
          rw [convolve3_cornerMN hM (by omega)]
          have hl : 0 ≤ a (M - 1) (N - 2) := hrow (N - 2) (by omega)
          have t1 : 0 ≤ a (M - 1) (N - 1) * (1 - 5 * s1) := mul_nonneg ha (by linarith)
          have t2 : 0 ≤ s1 * (a (M - 1) (N - 1) + a (M - 1 - 1) (N - 1)) :=
            mul_nonneg hs1 (by linarith)
          have t3 : 0 ≤ a (M - 1) (N - 2) * (s1 - s2 * invr (N - 1)) :=
            mul_nonneg hl (by linarith [hq0 (N - 1), hq2 (N - 1)])
          have hM2 : M - 1 - 1 = M - 2 := by omega
          rw [hM2] at t2
          linarith [t1, t2, t3]
        · subst hiM1
          rw [convolve3_bottom hM (by omega) (by omega)]
          have hl : 0 ≤ a (M - 1) (j - 1) := hrow (j - 1) (by omega)
          have hr : 0 ≤ a (M - 1) (j + 1) := hrow (j + 1) (by omega)
          have t1 : 0 ≤ a (M - 1) j * (1 - 5 * s1) := mul_nonneg ha (by linarith)
          have t2 : 0 ≤ s1 * (a (M - 1) j + a (M - 1 - 1) j) := mul_nonneg hs1 (by linarith)
          have t3 : 0 ≤ a (M - 1) (j - 1) * (s1 - s2 * invr j) :=
            mul_nonneg hl (by linarith [hq0 j, hq2 j])
          have t4 : 0 ≤ a (M - 1) (j + 1) * (s1 + s2 * invr j) :=
            mul_nonneg hr (by linarith [hq0 j])
          have hM2 : M - 1 - 1 = M - 2 := by omega
          rw [hM2] at t2
          linarith [t1, t2, t3, t4]
    · -- middle rows: both vertical neighbours are read
      have hi1 : 1 ≤ i := by omega
      have hiM2 : i + 1 < M := by omega
      have hu : -(a i j) ≤ a (i - 1) j := hup hi1
      have hd : -(a i j) ≤ a (i + 1) j := hdown (by omega)
      have hone' : 0 ≤ a (i - 1) j ∨ 0 ≤ a (i + 1) j := by
        rcases hone with h | h
        · exact Or.inl (h hi1)
        · exact Or.inr (h (by omega))
      by_cases hj0 : j = 0
      · subst hj0
        rw [convolve3_left hi1 hiM2 (by omega)]
        have h1 : 0 ≤ a i 1 := hrow 1 (by omega)
        have t3 : 0 ≤ a i 1 * (s1 + s2 * invr 0) :=
          mul_nonneg h1 (by linarith [hq0 0])
        rcases hone' with hreal | hreal
        · have t1 : 0 ≤ a i 0 * (1 - 5 * s1) := mul_nonneg ha (by linarith)
          have t2a : 0 ≤ s1 * a (i - 1) 0 := mul_nonneg hs1 hreal
          have t2b : 0 ≤ s1 * (a i 0 + a (i + 1) 0) := mul_nonneg hs1 (by linarith)
          linarith [t1, t2a, t2b, t3]
        · have t1 : 0 ≤ a i 0 * (1 - 5 * s1) := mul_nonneg ha (by linarith)
          have t2a : 0 ≤ s1 * (a i 0 + a (i - 1) 0) := mul_nonneg hs1 (by linarith)
          have t2b : 0 ≤ s1 * a (i + 1) 0 := mul_nonneg hs1 hreal
          linarith [t1, t2a, t2b, t3]
      · by_cases hjN : j = N - 1
        · subst hjN
          rw [convolve3_right hi1 hiM2 (by omega)]
          have hl : 0 ≤ a i (N - 2) := hrow (N - 2) (by omega)
          have t3 : 0 ≤ a i (N - 2) * (s1 - s2 * invr (N - 1)) :=
            mul_nonneg hl (by linarith [hq0 (N - 1), hq2 (N - 1)])
          rcases hone' with hreal | hreal
          · have t1 : 0 ≤ a i (N - 1) * (1 - 5 * s1) := mul_nonneg ha (by linarith)
            have t2a : 0 ≤ s1 * a (i - 1) (N - 1) := mul_nonneg hs1 hreal
            have t2b : 0 ≤ s1 * (a i (N - 1) + a (i + 1) (N - 1)) :=
              mul_nonneg hs1 (by linarith)
            linarith [t1, t2a, t2b, t3]
          · have t1 : 0 ≤ a i (N - 1) * (1 - 5 * s1) := mul_nonneg ha (by linarith)
            have t2a : 0 ≤ s1 * (a i (N - 1) + a (i - 1) (N - 1)) :=
              mul_nonneg hs1 (by linarith)
            have t2b : 0 ≤ s1 * a (i + 1) (N - 1) := mul_nonneg hs1 hreal
            linarith [t1, t2a, t2b, t3]
        · by_cases hj1 : j = 1
          · subst hj1
            rw [convolve3_axis hi1 hiM2 hN]
            have h0c : 0 ≤ a i 0 := hrow 0 (by omega)
            have h2c : 0 ≤ a i 2 := hrow 2 (by omega)
            have t4 : 0 ≤ 2 * s1 * a i 0 := by positivity
            have t5 : 0 ≤ 2 * s1 * a i 2 := by positivity
            rcases hone' with hreal | hreal
            · have t1 : 0 ≤ a i 1 * (1 - 7 * s1) := mul_nonneg ha (by linarith)
              have t2a : 0 ≤ s1 * a (i - 1) 1 := mul_nonneg hs1 hreal
              have t2b : 0 ≤ s1 * (a i 1 + a (i + 1) 1) := mul_nonneg hs1 (by linarith)
              linarith [t1, t2a, t2b, t4, t5]
            · have t1 : 0 ≤ a i 1 * (1 - 7 * s1) := mul_nonneg ha (by linarith)
              have t2a : 0 ≤ s1 * (a i 1 + a (i - 1) 1) := mul_nonneg hs1 (by linarith)
              have t2b : 0 ≤ s1 * a (i + 1) 1 := mul_nonneg hs1 hreal
              linarith [t1, t2a, t2b, t4, t5]
          · rw [convolve3_interior hi1 hiM2 (by omega) (by omega)]
            have hl : 0 ≤ a i (j - 1) := hrow (j - 1) (by omega)
            have hr : 0 ≤ a i (j + 1) := hrow (j + 1) (by omega)
            have t3 : 0 ≤ a i (j - 1) * (s1 - s2 * invr j) :=
              mul_nonneg hl (by linarith [hq0 j, hq2 j])
            have t4 : 0 ≤ a i (j + 1) * (s1 + s2 * invr j) :=
              mul_nonneg hr (by linarith [hq0 j])
            rcases hone' with hreal | hreal
            · have t1 : 0 ≤ a i j * (1 - 5 * s1) := mul_nonneg ha (by linarith)
              have t2a : 0 ≤ s1 * a (i - 1) j := mul_nonneg hs1 hreal
              have t2b : 0 ≤ s1 * (a i j + a (i + 1) j) := mul_nonneg hs1 (by linarith)
              linarith [t1, t2a, t2b, t3, t4]
            · have t1 : 0 ≤ a i j * (1 - 5 * s1) := mul_nonneg ha (by linarith)
              have t2a : 0 ≤ s1 * (a i j + a (i - 1) j) := mul_nonneg hs1 (by linarith)
              have t2b : 0 ≤ s1 * a (i + 1) j := mul_nonneg hs1 hreal
              linarith [t1, t2a, t2b, t3, t4]

/-- Real rows of the SR sub-grid copy the field. -/
theorem c_sr_real (P : LayerParams) (c : ℕ → ℕ → ℚ) {i : ℕ} (j : ℕ)
    (h : i < P.iz1 + 1) : c_sr P c i j = c i j := by
  unfold c_sr
  rw [if_pos h]

/-- The ghost row of the SR sub-grid. -/
theorem c_sr_ghost (P : LayerParams) (c : ℕ → ℕ → ℚ) (j : ℕ) :
    c_sr P c (P.iz1 + 1) j = 2 * cb_sr P c j - c P.iz1 j := by
  unfold c_sr
  rw [if_neg (by omega), if_pos rfl]

/-- Real rows of the SP sub-grid copy the field. -/
theorem c_sp_real (P : LayerParams) (c : ℕ → ℕ → ℚ) {i : ℕ} (j : ℕ)
    (h1 : 1 ≤ i) (h2 : i < P.iz2 - P.iz1 + 1) : c_sp P c i j = c (P.iz1 + i) j := by
  unfold c_sp
  rw [if_neg (by omega), if_pos h2]

/-- The upper ghost row of the SP sub-grid. -/
theorem c_sp_ghost_top (P : LayerParams) (c : ℕ → ℕ → ℚ) (j : ℕ) :
    c_sp P c 0 j = 2 * cb_sr P c j - c (P.iz1 + 1) j := by
  unfold c_sp
  rw [if_pos rfl]

/-- The lower ghost row of the SP sub-grid. -/
theorem c_sp_ghost_bot (P : LayerParams) (c : ℕ → ℕ → ℚ) (j : ℕ) :
    c_sp P c (P.iz2 - P.iz1 + 1) j = 2 * cb_so P c j - c P.iz2 j := by
  unfold c_sp
  rw [if_neg (by omega), if_neg (by omega), if_pos rfl]

/-- Real rows of the SO sub-grid copy the field. -/
theorem c_so_real (P : LayerParams) (c : ℕ → ℕ → ℚ) {i : ℕ} (j : ℕ)
    (h1 : 1 ≤ i) (h2 : i < P.nz - P.iz2) : c_so P c i j = c (P.iz2 + i) j := by
  unfold c_so
  rw [if_neg (by omega), if_pos h2]

/-- The ghost row of the SO sub-grid. -/
theorem c_so_ghost (P : LayerParams) (c : ℕ → ℕ → ℚ) (j : ℕ) :
    c_so P c 0 j = 2 * cb_so P c j - c (P.iz2 + 1) j := by
  unfold c_so
  rw [if_pos rfl]

/-- The SR/SP interface value is non-negative on non-negative fields with
non-negative diffusion parameters. -/
theorem cb_sr_nonneg (P : LayerParams) (c : ℕ → ℕ → ℚ) (j : ℕ)
    (hasr : 0 ≤ P.alpha_sr) (hasp : 0 ≤ P.alpha_sp)
    (htsr : 0 ≤ P.theta_sr) (htsp : 0 ≤ P.theta_sp) (hdf : 0 ≤ P.dfree)
    (h1 : 0 ≤ c P.iz1 j) (h2 : 0 ≤ c (P.iz1 + 1) j) : 0 ≤ cb_sr P c j := by
  unfold cb_sr dstar_sr dstar_sp
  have w1 : 0 ≤ P.theta_sr * P.dfree * P.alpha_sr :=
    mul_nonneg (mul_nonneg htsr hdf) hasr
  have w2 : 0 ≤ P.theta_sp * P.dfree * P.alpha_sp :=
    mul_nonneg (mul_nonneg htsp hdf) hasp
  exact div_nonneg (add_nonneg (mul_nonneg w1 h1) (mul_nonneg w2 h2))
    (add_nonneg w1 w2)

/-- The SP/SO interface value is non-negative on non-negative fields with
non-negative diffusion parameters. -/
theorem cb_so_nonneg (P : LayerParams) (c : ℕ → ℕ → ℚ) (j : ℕ)
    (hasp : 0 ≤ P.alpha_sp) (haso : 0 ≤ P.alpha_so)
    (htsp : 0 ≤ P.theta_sp) (htso : 0 ≤ P.theta_so) (hdf : 0 ≤ P.dfree)
    (h1 : 0 ≤ c P.iz2 j) (h2 : 0 ≤ c (P.iz2 + 1) j) : 0 ≤ cb_so P c j := by
  unfold cb_so dstar_sp dstar_so
  have w1 : 0 ≤ P.theta_sp * P.dfree * P.alpha_sp :=
    mul_nonneg (mul_nonneg htsp hdf) hasp
  have w2 : 0 ≤ P.theta_so * P.dfree * P.alpha_so :=
    mul_nonneg (mul_nonneg htso hdf) haso
  exact div_nonneg (add_nonneg (mul_nonneg w1 h1) (mul_nonneg w2 h2))
    (add_nonneg w1 w2)

/-- Bounds on the SR first-derivative coefficients against the drivers'
`invr`. -/
theorem q_bounds_sr (P : LayerParams) (htsr : 0 ≤ P.theta_sr) (hdf : 0 ≤ P.dfree)
    (hdt : 0 ≤ P.dt) (hdr : 0 < P.dr) (jq : ℕ) :
    0 ≤ const_sr2 P * mkInvr P.dr jq
    ∧ 2 * (const_sr2 P * mkInvr P.dr jq) ≤ const_sr1 P := by
  have hx : 0 ≤ dstar_sr P * P.dt := by
    unfold dstar_sr
    exact mul_nonneg (mul_nonneg htsr hdf) hdt
  have h := scaleBounds (dstar_sr P * P.dt) P.dr hx hdr jq
  unfold const_sr2 const_sr1
  exact h

/-- Bounds on the SP first-derivative coefficients against the drivers'
`invr`. -/
theorem q_bounds_sp (P : LayerParams) (htsp : 0 ≤ P.theta_sp) (hdf : 0 ≤ P.dfree)
    (hdt : 0 ≤ P.dt) (hdr : 0 < P.dr) (jq : ℕ) :
    0 ≤ const_sp2 P * mkInvr P.dr jq
    ∧ 2 * (const_sp2 P * mkInvr P.dr jq) ≤ const_sp1 P := by
  have hx : 0 ≤ dstar_sp P * P.dt := by
    unfold dstar_sp
    exact mul_nonneg (mul_nonneg htsp hdf) hdt
  have h := scaleBounds (dstar_sp P * P.dt) P.dr hx hdr jq
  unfold const_sp2 const_sp1
  exact h

/-- Bounds on the SO first-derivative coefficients against the drivers'
`invr`. -/
theorem q_bounds_so (P : LayerParams) (htso : 0 ≤ P.theta_so) (hdf : 0 ≤ P.dfree)
    (hdt : 0 ≤ P.dt) (hdr : 0 < P.dr) (jq : ℕ) :
    0 ≤ const_so2 P * mkInvr P.dr jq
    ∧ 2 * (const_so2 P * mkInvr P.dr jq) ≤ const_so1 P := by
  have hx : 0 ≤ dstar_so P * P.dt := by
    unfold dstar_so
    exact mul_nonneg (mul_nonneg htso hdf) hdt
  have h := scaleBounds (dstar_so P * P.dt) P.dr hx hdr jq
  unfold const_so2 const_so1
  exact h

/-- The layer scale factors are non-negative. -/
theorem const1_nonneg (P : LayerParams) (htsr : 0 ≤ P.theta_sr)
    (htsp : 0 ≤ P.theta_sp) (htso : 0 ≤ P.theta_so) (hdf : 0 ≤ P.dfree)
    (hdt : 0 ≤ P.dt) :
    0 ≤ const_sr1 P ∧ 0 ≤ const_sp1 P ∧ 0 ≤ const_so1 P := by
  unfold const_sr1 const_sp1 const_so1 dstar_sr dstar_sp dstar_so
  refine ⟨?_, ?_, ?_⟩ <;>
    exact div_nonneg (mul_nonneg (mul_nonneg (by assumption) hdf) hdt)
      (mul_self_nonneg P.dr)

/-- One layered diffusion update preserves non-negativity of the grid,
under non-negative diffusion parameters, the drivers' `invr`, the
`7·scale1 ≤ 1` stability bound for each layer, and the layer-geometry
constraints checked by the drivers. -/
theorem diffuseLayered_nonneg (P : LayerParams) (c : ℕ → ℕ → ℚ)
    (hdt : 0 < P.dt) (hdr : 0 < P.dr)
    (hasr : 0 ≤ P.alpha_sr) (hasp : 0 ≤ P.alpha_sp) (haso : 0 ≤ P.alpha_so)
    (htsr : 0 ≤ P.theta_sr) (htsp : 0 ≤ P.theta_sp) (htso : 0 ≤ P.theta_so)
    (hdf : 0 ≤ P.dfree)
    (hinvr : P.invr = mkInvr P.dr)
    (hc1 : 7 * const_sr1 P ≤ 1) (hc2 : 7 * const_sp1 P ≤ 1)
    (hc3 : 7 * const_so1 P ≤ 1)
    (hnr : 2 ≤ P.nr) (hiz1 : P.iz1 + 2 ≤ P.iz2) (hiz2 : P.iz2 + 2 ≤ P.nz)
    (hc : ∀ i j, i < P.nz → j < P.nr + 1 → 0 ≤ c i j)
    (i j : ℕ) (hi : i < P.nz) (hj : j < P.nr + 1) :
    0 ≤ diffuseLayered P c i j := by
  obtain ⟨hs1sr, hs1sp, hs1so⟩ :=
    const1_nonneg P htsr htsp htso hdf (le_of_lt hdt)
  have hcbsr : ∀ j', j' < P.nr + 1 → 0 ≤ cb_sr P c j' := fun j' hj' =>
    cb_sr_nonneg P c j' hasr hasp htsr htsp hdf
      (hc P.iz1 j' (by omega) hj') (hc (P.iz1 + 1) j' (by omega) hj')
  have hcbso : ∀ j', j' < P.nr + 1 → 0 ≤ cb_so P c j' := fun j' hj' =>
    cb_so_nonneg P c j' hasp haso htsp htso hdf
      (hc P.iz2 j' (by omega) hj') (hc (P.iz2 + 1) j' (by omega) hj')
  have hg : i < P.nz ∧ j < P.nr + 1 := ⟨hi, hj⟩
  unfold diffuseLayered
  rw [if_pos hg, hinvr]
  by_cases hA : i < P.iz1 + 1
  · rw [if_pos hA]
    refine convolve3_cell_nonneg (P.iz1 + 2) (P.nr + 1) (c_sr P c)
      (const_sr1 P) (const_sr2 P) (mkInvr P.dr) i j
      (by omega) (by omega) (by omega) hj hs1sr hc1
      (fun jq => (q_bounds_sr P htsr hdf (le_of_lt hdt) hdr jq).1)
      (fun jq => (q_bounds_sr P htsr hdf (le_of_lt hdt) hdr jq).2)
      ?_ ?_ ?_ ?_
    · intro jr hjr
      rw [c_sr_real P c jr hA]
      exact hc i jr (by omega) hjr
    · intro h1
      rw [c_sr_real P c j hA, c_sr_real P c j (by omega : i - 1 < P.iz1 + 1)]
      have hv1 := hc (i - 1) j (by omega) hj
      have hv2 := hc i j (by omega) hj
      linarith
    · intro h2
      rw [c_sr_real P c j hA]
      by_cases hgh : i + 1 = P.iz1 + 1
      · have hieq : i = P.iz1 := by omega
        rw [hgh, c_sr_ghost P c j, hieq]
        linarith [hcbsr j hj]
      · rw [c_sr_real P c j (by omega : i + 1 < P.iz1 + 1)]
        have hv1 := hc (i + 1) j (by omega) hj
        have hv2 := hc i j (by omega) hj
        linarith
    · left
      intro h1
      rw [c_sr_real P c j (by omega : i - 1 < P.iz1 + 1)]
      exact hc (i - 1) j (by omega) hj
  · by_cases hB : i < P.iz2 + 1
    · rw [if_neg hA, if_pos hB]
      refine convolve3_cell_nonneg (P.iz2 - P.iz1 + 2) (P.nr + 1) (c_sp P c)
        (const_sp1 P) (const_sp2 P) (mkInvr P.dr) (i - P.iz1) j
        (by omega) (by omega) (by omega) hj hs1sp hc2
        (fun jq => (q_bounds_sp P htsp hdf (le_of_lt hdt) hdr jq).1)
        (fun jq => (q_bounds_sp P htsp hdf (le_of_lt hdt) hdr jq).2)
        ?_ ?_ ?_ ?_
      · intro jr hjr
        rw [c_sp_real P c jr (by omega) (by omega)]
        exact hc (P.iz1 + (i - P.iz1)) jr (by omega) hjr
      · intro h1
        have hcen : 0 ≤ c_sp P c (i - P.iz1) j := by
          rw [c_sp_real P c j (by omega) (by omega)]
          exact hc (P.iz1 + (i - P.iz1)) j (by omega) hj
        by_cases hgh : i - P.iz1 = 1
        · rw [hgh]
          have e0 : (1 : ℕ) - 1 = 0 := rfl
          rw [e0, c_sp_ghost_top P c j, c_sp_real P c j (by omega) (by omega)]
          have e1 : P.iz1 + 1 = P.iz1 + 1 := rfl
          linarith [hcbsr j hj]
        · rw [c_sp_real P c j (by omega) (by omega),
            c_sp_real P c j (by omega) (by omega)]
          have hv1 := hc (P.iz1 + (i - P.iz1 - 1)) j (by omega) hj
          have hv2 := hc (P.iz1 + (i - P.iz1)) j (by omega) hj
          linarith
      · intro h2
        by_cases hgh : i = P.iz2
        · have e1 : i - P.iz1 + 1 = P.iz2 - P.iz1 + 1 := by omega
          have e2 : P.iz1 + (i - P.iz1) = P.iz2 := by omega
          rw [e1, c_sp_ghost_bot P c j, c_sp_real P c j (by omega) (by omega), e2]
          linarith [hcbso j hj]
        · rw [c_sp_real P c j (by omega) (by omega),
            c_sp_real P c j (by omega) (by omega)]
          have hv1 := hc (P.iz1 + (i - P.iz1 + 1)) j (by omega) hj
          have hv2 := hc (P.iz1 + (i - P.iz1)) j (by omega) hj
          linarith
      · by_cases hsp1 : i = P.iz1 + 1
        · right
          intro h'
          rw [c_sp_real P c j (by omega) (by omega)]
          exact hc (P.iz1 + (i - P.iz1 + 1)) j (by omega) hj
        · left
          intro h'
          rw [c_sp_real P c j (by omega) (by omega)]
          exact hc (P.iz1 + (i - P.iz1 - 1)) j (by omega) hj
    · rw [if_neg hA, if_neg hB]
      refine convolve3_cell_nonneg (P.nz - P.iz2) (P.nr + 1) (c_so P c)
        (const_so1 P) (const_so2 P) (mkInvr P.dr) (i - P.iz2) j
        (by omega) (by omega) (by omega) hj hs1so hc3
        (fun jq => (q_bounds_so P htso hdf (le_of_lt hdt) hdr jq).1)
        (fun jq => (q_bounds_so P htso hdf (le_of_lt hdt) hdr jq).2)
        ?_ ?_ ?_ ?_
      · intro jr hjr
        rw [c_so_real P c jr (by omega) (by omega)]
        exact hc (P.iz2 + (i - P.iz2)) jr (by omega) hjr
      · intro h1
        by_cases hgh : i - P.iz2 = 1
        · rw [hgh]
          have e0 : (1 : ℕ) - 1 = 0 := rfl
          rw [e0, c_so_ghost P c j, c_so_real P c j (by omega) (by omega)]
          have e1 : P.iz2 + 1 = P.iz2 + 1 := rfl
          linarith [hcbso j hj]
        · rw [c_so_real P c j (by omega) (by omega),
            c_so_real P c j (by omega) (by omega)]
          have hv1 := hc (P.iz2 + (i - P.iz2 - 1)) j (by omega) hj
          have hv2 := hc (P.iz2 + (i - P.iz2)) j (by omega) hj
          linarith
      · intro h2
        rw [c_so_real P c j (by omega) (by omega),
          c_so_real P c j (by omega) (by omega)]
        have hv1 := hc (P.iz2 + (i - P.iz2 + 1)) j (by omega) hj
        have hv2 := hc (P.iz2 + (i - P.iz2)) j (by omega) hj
        linarith
      · right
        intro h'
        rw [c_so_real P c j (by omega) (by omega)]
        exact hc (P.iz2 + (i - P.iz2 + 1)) j (by omega) hj

/-- One homogeneous-mode diffusion update preserves non-negativity. -/
theorem diffuseNolayer_nonneg (P : LayerParams) (c : ℕ → ℕ → ℚ)
    (hdt : 0 < P.dt) (hdr : 0 < P.dr)
    (htsr : 0 ≤ P.theta_sr) (hdf : 0 ≤ P.dfree)
    (hinvr : P.invr = mkInvr P.dr)
    (hc1 : 7 * const_sr1 P ≤ 1)
    (hnr : 2 ≤ P.nr) (hnz : 2 ≤ P.nz)
    (hc : ∀ i j, i < P.nz → j < P.nr + 1 → 0 ≤ c i j)
    (i j : ℕ) (hi : i < P.nz) (hj : j < P.nr + 1) :
    0 ≤ diffuseNolayer P c i j := by
  have hs1 : 0 ≤ const_sr1 P := by
    unfold const_sr1 dstar_sr
    exact div_nonneg (mul_nonneg (mul_nonneg htsr hdf) (le_of_lt hdt))
      (mul_self_nonneg P.dr)
  have hg : i < P.nz ∧ j < P.nr + 1 := ⟨hi, hj⟩
  unfold diffuseNolayer
  rw [if_pos hg, hinvr]
  refine convolve3_cell_nonneg P.nz (P.nr + 1) c (const_sr1 P) (const_sr2 P)
    (mkInvr P.dr) i j hnz (by omega) (by omega) hj hs1 hc1
    (fun jq => (q_bounds_sr P htsr hdf (le_of_lt hdt) hdr jq).1)
    (fun jq => (q_bounds_sr P htsr hdf (le_of_lt hdt) hdr jq).2)
    (fun jr hjr => hc i jr hi hjr) ?_ ?_ ?_
  · intro h1
    have hv1 := hc (i - 1) j (by omega) hj
    have hv2 := hc i j hi hj
    linarith
  · intro h2
    have hv1 := hc (i + 1) j (by omega) hj
    have hv2 := hc i j hi hj
    linarith
  · left
    intro h1
    exact hc (i - 1) j (by omega) hj

/-- One full timestep preserves non-negativity of the grid. -/
theorem layerStep_nonneg (P : LayerParams) (c : ℕ → ℕ → ℚ) (k : ℕ)
    (hdt : 0 < P.dt) (hdr : 0 < P.dr)
    (hasr : 0 ≤ P.alpha_sr) (hasp : 0 ≤ P.alpha_sp) (haso : 0 ≤ P.alpha_so)
    (htsr : 0 ≤ P.theta_sr) (htsp : 0 ≤ P.theta_sp) (htso : 0 ≤ P.theta_so)
    (hdf : 0 ≤ P.dfree)
    (hksr : P.kappa_sr * P.dt < 1) (hksp : P.kappa_sp * P.dt < 1)
    (hkso : P.kappa_so * P.dt < 1)
    (hs : ∀ i j, 0 ≤ P.s i j)
    (hinvr : P.invr = mkInvr P.dr)
    (hc1 : 7 * const_sr1 P ≤ 1) (hc2 : 7 * const_sp1 P ≤ 1)
    (hc3 : 7 * const_so1 P ≤ 1)
    (hnr : 2 ≤ P.nr) (hiz1 : P.iz1 + 2 ≤ P.iz2) (hiz2 : P.iz2 + 2 ≤ P.nz)
    (hc : ∀ i j, i < P.nz → j < P.nr + 1 → 0 ≤ c i j) :
    ∀ i j, i < P.nz → j < P.nr + 1 → 0 ≤ layerStep P k c i j := by
  have hdiff : ∀ i j, i < P.nz → j < P.nr + 1 →
      0 ≤ (if P.nolayer then diffuseNolayer P c else diffuseLayered P c) i j := by
    intro i j hi hj
    cases hb : P.nolayer
    · simp only [hb, Bool.false_eq_true, if_false]
      exact diffuseLayered_nonneg P c hdt hdr hasr hasp haso htsr htsp htso hdf
        hinvr hc1 hc2 hc3 hnr hiz1 hiz2 hc i j hi hj
    · simp only [hb, if_true]
      exact diffuseNolayer_nonneg P c hdt hdr htsr hdf hinvr hc1 hnr
        (by omega) hc i j hi hj
  have hsrc : ∀ i j, i < P.nz → j < P.nr + 1 →
      0 ≤ addSource P k (if P.nolayer then diffuseNolayer P c else diffuseLayered P c) i j := by
    intro i j hi hj
    unfold addSource
    by_cases hcond : P.t k + P.dt / 2 < P.sdelay + P.sduration
        ∧ i < P.nz ∧ j < P.nr + 1
    · rw [if_pos hcond]
      exact add_nonneg (hdiff i j hi hj) (hs i j)
    · rw [if_neg hcond]
      exact hdiff i j hi hj
  have hclear : ∀ i j, i < P.nz → j < P.nr + 1 →
      0 ≤ clearanceStep P (addSource P k
        (if P.nolayer then diffuseNolayer P c else diffuseLayered P c)) i j := by
    intro i j hi hj
    unfold clearanceStep
    have hg : i < P.nz ∧ j < P.nr + 1 := ⟨hi, hj⟩
    rw [if_pos hg]
    by_cases h1 : i < P.iz1 + 1
    · rw [if_pos h1]
      exact mul_nonneg (hsrc i j hi hj) (by linarith)
    · rw [if_neg h1]
      by_cases h2 : i < P.iz2 + 1
      · rw [if_pos h2]
        exact mul_nonneg (hsrc i j hi hj) (by linarith)
      · rw [if_neg h2]
        exact mul_nonneg (hsrc i j hi hj) (by linarith)
  intro i j hi hj
  unfold layerStep symmetrize
  by_cases h0 : i < P.nz ∧ j = 0
  · rw [if_pos h0]
    exact hclear i 2 h0.1 (by omega)
  · rw [if_neg h0]
    exact hclear i j hi hj

/-- C7 amended: for non-negative layer parameters, non-negative source,
clearance rates with `κ·Δt < 1`, the drivers' `invr` array,
driver-consistent layer geometry (`iz1+2 ≤ iz2 ≤ nz-2`, `nr ≥ 2`), and the
per-layer stability bound `7·D*·Δt ≤ Δr²` (equivalently `7·scale1 ≤ 1` —
a bound the claim omits and without which positivity fails), the field is
non-negative at every grid cell after every timestep, in both modes. -/
theorem claim_C7_amended (P : LayerParams)
    (hdt : 0 < P.dt) (hdr : 0 < P.dr)
    (hasr : 0 ≤ P.alpha_sr) (hasp : 0 ≤ P.alpha_sp) (haso : 0 ≤ P.alpha_so)
    (htsr : 0 ≤ P.theta_sr) (htsp : 0 ≤ P.theta_sp) (htso : 0 ≤ P.theta_so)
    (hdf : 0 ≤ P.dfree)
    (hksr0 : 0 ≤ P.kappa_sr) (hksr : P.kappa_sr * P.dt < 1)
    (hksp0 : 0 ≤ P.kappa_sp) (hksp : P.kappa_sp * P.dt < 1)
    (hkso0 : 0 ≤ P.kappa_so) (hkso : P.kappa_so * P.dt < 1)
    (hs : ∀ i j, 0 ≤ P.s i j)
    (hinvr : P.invr = mkInvr P.dr)
    (hc1 : 7 * const_sr1 P ≤ 1) (hc2 : 7 * const_sp1 P ≤ 1)
    (hc3 : 7 * const_so1 P ≤ 1)
    (hnr : 2 ≤ P.nr) (hiz1 : P.iz1 + 2 ≤ P.iz2) (hiz2 : P.iz2 + 2 ≤ P.nz) :
    ∀ n i j, i < P.nz → j < P.nr + 1 → 0 ≤ cAfter P n i j := by
  intro n
  induction n with
  | zero => exact fun i j _ _ => hs i j
  | succ m ih =>
      exact layerStep_nonneg P (cAfter P m) (ndsN P + m) hdt hdr hasr hasp haso
        htsr htsp htso hdf hksr hksp hkso hs hinvr hc1 hc2 hc3 hnr hiz1 hiz2 ih

/-- Witness for the amended C7 at the concrete configuration `exP1`
(layered mode, stability factor `1/7`), one step, cell `(0,0)`. -/
theorem claim_C7_amended_witness : 0 ≤ cAfter exP1 1 0 0 :=
  claim_C7_amended exP1
    (by norm_num [exP1]) (by norm_num [exP1])
    (by norm_num [exP1]) (by norm_num [exP1]) (by norm_num [exP1])
    (by norm_num [exP1]) (by norm_num [exP1]) (by norm_num [exP1])
    (by norm_num [exP1])
    (by norm_num [exP1]) (by norm_num [exP1])
    (by norm_num [exP1]) (by norm_num [exP1])
    (by norm_num [exP1]) (by norm_num [exP1])
    (fun i j => by norm_num [exP1])
    rfl
    (by norm_num [const_sr1, dstar_sr, exP1])
    (by norm_num [const_sp1, dstar_sp, exP1])
    (by norm_num [const_so1, dstar_so, exP1])
    (by norm_num [exP1]) (by norm_num [exP1]) (by norm_num [exP1])
    1 0 0 (by norm_num [exP1]) (by norm_num [exP1])
